import Mathlib

/-!
Verification of the vector-backed memtable representation (util/vectorrep.cc).

Shallow embedding: entries are opaque references modelled as values of a type
with decidable equality (equality of two values models raw pointer identity);
the externally supplied KeyComparator is a function cmp returning an Int whose
sign gives the ordering (negative: first argument orders before second).

The C++ object state is passed explicitly:
- Store models VectorRep (fields bucket_, immutable_, sorted_).
- Iter models VectorRep::Iterator (vrep_ nullness as the shared flag, bucket_,
  cit_, sorted_). The cursor cit_ is an Option Nat: none models the
  nullptr-initialized cursor of a freshly constructed iterator, some i models
  a position, with i equal to the bucket length meaning past-the-end.
- In shared mode the iterator's bucket_ aliases the store's bucket through a
  shared_ptr; state passing renders the alias by keeping the two fields equal:
  DoSort, the only operation that both touches the store and runs while the
  alias can be out of sync, re-reads the store's bucket.
- std::sort with the comparator-induced strict order is realized by
  List.mergeSort with the non-strict predicate (0 <= cmp b a), i.e. the
  negation of (cmp b a < 0): a sequence sorted by std::sort has no adjacent
  inversion, which is exactly pairwise satisfaction of that predicate.
-/

namespace VectorRep

/-- State of a VectorRep store: the growable sequence of entry references,
the one-way immutability flag, and the shared sorted flag. -/
structure Store (α : Type) where
  bucket : List α
  immutable : Bool
  sorted : Bool
deriving DecidableEq, Repr

/-- The VectorRep constructor: empty bucket, both flags false. The capacity
hint only pre-reserves storage and has no observable effect on contents. -/
def mkStore (α : Type) (_count : Nat) : Store α :=
  { bucket := [], immutable := false, sorted := false }

/-- VectorRep::Insert: appends the reference to the bucket. The source
asserts !Contains(key) and !immutable_ (debug checks, caller contract);
the body unconditionally pushes back. -/
def Insert {α : Type} (st : Store α) (key : α) : Store α :=
  { st with bucket := st.bucket ++ [key] }

/-- VectorRep::Contains: std::find over the bucket, comparing the raw
references with operator== (pointer identity), modelled by decidable
equality on the entry type. -/
def Contains {α : Type} [DecidableEq α] (st : Store α) (key : α) : Bool :=
  st.bucket.contains key

/-- VectorRep::MarkReadOnly: sets immutable_ under the write lock. -/
def MarkReadOnly {α : Type} (st : Store α) : Store α :=
  { st with immutable := true }

/-- VectorRep::ApproximateMemoryUsage: sizeof(bucket_) + sizeof(*bucket_) +
bucket_->size() * sizeof(value_type). The three sizeof constants are
platform parameters. -/
def ApproximateMemoryUsage (szPtr szVec szRef : Nat) {α : Type} (st : Store α) : Nat :=
  szPtr + szVec + st.bucket.length * szRef

/-- State of a VectorRep::Iterator. shared is true when vrep_ is non-null
(the iterator works on the store's own bucket); bucket is the backing
sequence contents; cit the cursor; sorted the iterator-local sort flag. -/
structure Iter (α : Type) where
  shared : Bool
  bucket : List α
  cit : Option Nat
  sorted : Bool
deriving DecidableEq, Repr

/-- The Iterator constructor: cursor initialized to nullptr (none),
local sorted flag false. -/
def mkIterator {α : Type} (shared : Bool) (bucket : List α) : Iter α :=
  { shared := shared, bucket := bucket, cit := none, sorted := false }

/-- VectorRep::GetIterator: under the read lock, if immutable_ hand out a
shared-mode iterator on the store's own bucket, otherwise a private-mode
iterator on a copy of the current contents. -/
def GetIterator {α : Type} (st : Store α) : Iter α :=
  if st.immutable then mkIterator true st.bucket
  else mkIterator false st.bucket

/-- The ordering predicate induced by the comparator under which a
std::sort result has no adjacent inversion: le a b holds when b is not
strictly ordered before a, i.e. not (cmp b a < 0). -/
def cmpLe {α : Type} (cmp : α → α → Int) (a b : α) : Bool :=
  decide (0 ≤ cmp b a)

/-- Realization of std::sort(bucket, Compare(compare_)): a permutation of
the input with no adjacent inversion under the comparator. -/
def sortBucket {α : Type} (cmp : α → α → Int) (l : List α) : List α :=
  l.mergeSort (cmpLe cmp)

/-- VectorRep::Iterator::DoSort. First block: if the iterator is unsorted
and shared, take the store's write lock; if the store is unsorted, sort the
shared bucket in place, reset the cursor to begin, publish the store's
sorted flag; in either case mark this iterator sorted. Second block: if
still unsorted (private mode), sort the private bucket, cursor to begin. -/
def DoSort {α : Type} (cmp : α → α → Int) (st : Store α) (it : Iter α) :
    Store α × Iter α :=
  if !it.sorted && it.shared then
    if !st.sorted then
      let b := sortBucket cmp st.bucket
      ({ st with bucket := b, sorted := true },
       { it with bucket := b, cit := some 0, sorted := true })
    else
      (st, { it with bucket := st.bucket, sorted := true })
  else if !it.sorted then
    (st, { it with bucket := sortBucket cmp it.bucket, cit := some 0, sorted := true })
  else
    (st, it)

/-- VectorRep::Iterator::Valid: DoSort, then compare the cursor with
past-the-end. The nullptr cursor (none) compares unequal to end, matching
the pointer comparison against the non-null end of a reserved vector. -/
def Valid {α : Type} (cmp : α → α → Int) (st : Store α) (it : Iter α) :
    Store α × Iter α × Bool :=
  let p := DoSort cmp st it
  (p.1, p.2, decide (p.2.cit ≠ some p.2.bucket.length))

/-- VectorRep::Iterator::key: dereference the cursor (requires Valid). -/
def key {α : Type} (it : Iter α) : Option α :=
  match it.cit with
  | some i => it.bucket[i]?
  | none => none

/-- VectorRep::Iterator::Next: no-op at past-the-end, else advance by one
(requires Valid; the none branch models the unreachable nullptr cursor). -/
def Next {α : Type} (it : Iter α) : Iter α :=
  match it.cit with
  | some i => if i = it.bucket.length then it else { it with cit := some (i + 1) }
  | none => it

/-- VectorRep::Iterator::Prev: from the first position jump to past-the-end
(invalidate rather than wrap), else step back by one (requires Valid; the
none branch models the unreachable nullptr cursor). -/
def Prev {α : Type} (it : Iter α) : Iter α :=
  match it.cit with
  | some i =>
    if i = 0 then { it with cit := some it.bucket.length }
    else { it with cit := some (i - 1) }
  | none => it

/-- Index of the first element not strictly ordered before the target:
the result of std::equal_range(..).first, i.e. std::lower_bound, on a
range partitioned by (cmp a target < 0). -/
def lowerBoundIdx {α : Type} (cmp : α → α → Int) (l : List α) (target : α) : Nat :=
  (l.takeWhile (fun a => decide (cmp a target < 0))).length

/-- VectorRep::Iterator::Seek: DoSort, then binary search for the first
element not less than the target. -/
def Seek {α : Type} (cmp : α → α → Int) (st : Store α) (it : Iter α)
    (target : α) : Store α × Iter α :=
  let p := DoSort cmp st it
  (p.1, { p.2 with cit := some (lowerBoundIdx cmp p.2.bucket target) })

/-- VectorRep::Iterator::SeekToFirst: DoSort, cursor to begin. -/
def SeekToFirst {α : Type} (cmp : α → α → Int) (st : Store α) (it : Iter α) :
    Store α × Iter α :=
  let p := DoSort cmp st it
  (p.1, { p.2 with cit := some 0 })

/-- VectorRep::Iterator::SeekToLast: DoSort, cursor to end, then one step
back when the bucket is non-empty. -/
def SeekToLast {α : Type} (cmp : α → α → Int) (st : Store α) (it : Iter α) :
    Store α × Iter α :=
  let p := DoSort cmp st it
  (p.1, { p.2 with
          cit := some (if p.2.bucket.length = 0 then p.2.bucket.length
                       else p.2.bucket.length - 1) })

/-- The traversal loop of the spec's testable property: while Valid(),
record key() and call Next(). Fuel bounds the number of loop iterations. -/
def drain {α : Type} (cmp : α → α → Int) :
    Nat → Store α → Iter α → List α
  | 0, _, _ => []
  | fuel + 1, st, it =>
    let v := Valid cmp st it
    if v.2.2 then
      match key v.2.1 with
      | some k => k :: drain cmp fuel v.1 (Next v.2.1)
      | none => []
    else []

/-- A concrete comparator on Nat-modelled references: usual numeric order. -/
def natCmp (a b : Nat) : Int := (a : Int) - (b : Int)

/-- Invariant of the vector representation: whenever the sorted flag is
set, the store is frozen and its bucket is totally ordered by the
comparator. -/
def StoreInv {α : Type} (cmp : α → α → Int) (st : Store α) : Prop :=
  st.sorted = true →
    st.immutable = true ∧ st.bucket.Pairwise (fun a b => cmp a b ≤ 0)

/-- The store-mutating transitions of the representation. Insert carries
the assert(!immutable_) / caller contract that no insert happens after
MarkReadOnly; the shared lazy sort is triggered through a shared-mode
iterator, which GetIterator only creates on a frozen store. -/
inductive StoreStep {α : Type} (cmp : α → α → Int) : Store α → Store α → Prop
  | insert (st : Store α) (k : α) (hm : st.immutable = false) :
      StoreStep cmp st (Insert st k)
  | mark (st : Store α) : StoreStep cmp st (MarkReadOnly st)
  | sortShared (st : Store α) (it : Iter α) (hsh : it.shared = true)
      (him : st.immutable = true) : StoreStep cmp st (DoSort cmp st it).1

/-! Basic facts about the embedded operations. -/

/-- Folding Insert appends the inserted keys, in order, to the bucket. -/
theorem foldl_Insert_bucket {α : Type} (ks : List α) : ∀ st : Store α,
    (ks.foldl Insert st).bucket = st.bucket ++ ks := by
  induction ks with
  | nil => intro st; simp
  | cons k ks ih =>
    intro st
    simp [List.foldl_cons, ih, Insert, List.append_assoc]

/-- Insert does not touch the immutable flag. -/
theorem foldl_Insert_immutable {α : Type} (ks : List α) : ∀ st : Store α,
    (ks.foldl Insert st).immutable = st.immutable := by
  induction ks with
  | nil => intro st; rfl
  | cons k ks ih => intro st; simp [List.foldl_cons, ih, Insert]

/-- Insert does not touch the sorted flag. -/
theorem foldl_Insert_sorted {α : Type} (ks : List α) : ∀ st : Store α,
    (ks.foldl Insert st).sorted = st.sorted := by
  induction ks with
  | nil => intro st; rfl
  | cons k ks ih => intro st; simp [List.foldl_cons, ih, Insert]

/-- DoSort on an iterator whose local flag is already set is a no-op. -/
theorem DoSort_of_sorted {α : Type} (cmp : α → α → Int) (st : Store α)
    (it : Iter α) (h : it.sorted = true) : DoSort cmp st it = (st, it) := by
  simp [DoSort, h]

/-- DoSort always sets the iterator's local sorted flag. -/
theorem sorted_DoSort {α : Type} (cmp : α → α → Int) (st : Store α)
    (it : Iter α) : ((DoSort cmp st it).2).sorted = true := by
  unfold DoSort
  by_cases h : it.sorted
  · simp [h]
  · by_cases hsh : it.shared
    · by_cases hst : st.sorted <;> simp [h, hsh, hst]
    · simp [h, hsh]

/-- Valid on a locally sorted iterator only compares cursor with end. -/
theorem Valid_of_sorted {α : Type} (cmp : α → α → Int) (st : Store α)
    (it : Iter α) (h : it.sorted = true) :
    Valid cmp st it = (st, it, decide (it.cit ≠ some it.bucket.length)) := by
  simp [Valid, DoSort_of_sorted cmp st it h]

/-- Next keeps the backing sequence. -/
theorem Next_bucket {α : Type} (it : Iter α) : (Next it).bucket = it.bucket := by
  unfold Next
  cases hc : it.cit with
  | none => rfl
  | some i => by_cases h : i = it.bucket.length <;> simp [h]

/-- Next keeps the local sorted flag. -/
theorem Next_sorted {α : Type} (it : Iter α) : (Next it).sorted = it.sorted := by
  unfold Next
  cases hc : it.cit with
  | none => rfl
  | some i => by_cases h : i = it.bucket.length <;> simp [h]

/-- Prev keeps the backing sequence. -/
theorem Prev_bucket {α : Type} (it : Iter α) : (Prev it).bucket = it.bucket := by
  unfold Prev
  cases hc : it.cit with
  | none => rfl
  | some i => by_cases h : i = 0 <;> simp [h]

/-- Prev keeps the local sorted flag. -/
theorem Prev_sorted {α : Type} (it : Iter α) : (Prev it).sorted = it.sorted := by
  unfold Prev
  cases hc : it.cit with
  | none => rfl
  | some i => by_cases h : i = 0 <;> simp [h]

/-- The sort result is a permutation of the input bucket. -/
theorem sortBucket_perm {α : Type} (cmp : α → α → Int) (l : List α) :
    (sortBucket cmp l).Perm l :=
  List.mergeSort_perm l (cmpLe cmp)

/-- Sorting keeps the bucket length. -/
theorem length_sortBucket {α : Type} (cmp : α → α → Int) (l : List α) :
    (sortBucket cmp l).length = l.length := by
  simp [sortBucket]

/-- Under the comparator's sign anti-symmetry, the sort predicate agrees
with non-positivity of the comparator. -/
theorem cmpLe_eq_true_iff {α : Type} (cmp : α → α → Int)
    (hanti : ∀ a b : α, cmp a b < 0 ↔ 0 < cmp b a) (a b : α) :
    cmpLe cmp a b = true ↔ cmp a b ≤ 0 := by
  have h1 := hanti a b
  have h2 := hanti b a
  simp only [cmpLe, decide_eq_true_eq]
  constructor
  · intro h
    by_contra hc
    have h3 : 0 < cmp a b := by omega
    have h4 := h2.2 h3
    omega
  · intro h
    by_contra hc
    have h3 : cmp b a < 0 := by omega
    have h4 := h2.1 h3
    omega

/-- Under the comparator contract (sign anti-symmetry, transitivity of the
non-strict order), the sorted bucket is pairwise non-decreasing. -/
theorem sortBucket_pairwise {α : Type} (cmp : α → α → Int)
    (hanti : ∀ a b : α, cmp a b < 0 ↔ 0 < cmp b a)
    (htrans : ∀ a b c : α, cmp a b ≤ 0 → cmp b c ≤ 0 → cmp a c ≤ 0)
    (l : List α) : (sortBucket cmp l).Pairwise (fun a b => cmp a b ≤ 0) := by
  have tr : ∀ (a b c : α), cmpLe cmp a b → cmpLe cmp b c → cmpLe cmp a c := by
    intro a b c hab hbc
    exact (cmpLe_eq_true_iff cmp hanti a c).2
      (htrans a b c ((cmpLe_eq_true_iff cmp hanti a b).1 hab)
        ((cmpLe_eq_true_iff cmp hanti b c).1 hbc))
  have tot : ∀ (a b : α), cmpLe cmp a b || cmpLe cmp b a := by
    intro a b
    simp only [cmpLe, Bool.or_eq_true, decide_eq_true_eq]
    by_cases hh : (0 : Int) ≤ cmp b a
    · exact Or.inl hh
    · have h3 : cmp b a < 0 := by omega
      have h4 := (hanti b a).1 h3
      exact Or.inr (by omega)
  have hs := List.sorted_mergeSort tr tot l
  exact hs.imp (fun hab => (cmpLe_eq_true_iff cmp hanti _ _).1 hab)

/-- The traversal loop on a locally sorted iterator positioned at index i
yields exactly the suffix of the backing sequence from i on, given enough
fuel. -/
theorem drain_eq_drop {α : Type} (cmp : α → α → Int) :
    ∀ (fuel : Nat) (st : Store α) (it : Iter α) (i : Nat),
      it.sorted = true → it.cit = some i → it.bucket.length - i < fuel →
      drain cmp fuel st it = it.bucket.drop i := by
  intro fuel
  induction fuel with
  | zero =>
    intro st it i _ _ hlt
    omega
  | succ n ih =>
    intro st it i hs hc hlt
    rw [drain]
    simp only [Valid_of_sorted cmp st it hs, hc]
    by_cases hi : i = it.bucket.length
    · subst hi
      simp [List.drop_length]
    · have hcond : decide (¬ (some i = some it.bucket.length)) = true := by
        simp [hi]
      simp only [ne_eq, hcond, if_true]
      by_cases hlen : i < it.bucket.length
      · have hkey : key it = some (it.bucket.get ⟨i, hlen⟩) := by
          simp [key, hc, List.getElem?_eq_getElem hlen]
        rw [hkey]
        have hnext : Next it = { it with cit := some (i + 1) } := by
          simp [Next, hc, hi]
        rw [hnext]
        rw [ih st { it with cit := some (i + 1) } (i + 1) hs rfl (by simp; omega)]
        simp only
        rw [List.drop_eq_getElem_cons hlen]
        rfl
      · have hge : it.bucket.length ≤ i := by omega
        have hkey : key it = none := by
          simp [key, hc, List.getElem?_eq_none hge]
        rw [hkey]
        rw [List.drop_eq_nil_of_le hge]

/-- Taking the length of a takeWhile prefix recovers the prefix itself. -/
theorem take_length_takeWhile {α : Type} (p : α → Bool) :
    ∀ l : List α, l.take (l.takeWhile p).length = l.takeWhile p := by
  intro l
  induction l with
  | nil => rfl
  | cons x l ih =>
    by_cases hx : p x
    · simp [List.takeWhile_cons, hx, ih]
    · simp [List.takeWhile_cons, hx]

/-- The element just after the takeWhile prefix, when present, fails the
predicate. -/
theorem getElem?_length_takeWhile {α : Type} (p : α → Bool) :
    ∀ (l : List α) (a : α), l[(l.takeWhile p).length]? = some a → p a = false := by
  intro l
  induction l with
  | nil => intro a h; simp at h
  | cons x l ih =>
    intro a h
    by_cases hx : p x
    · rw [List.takeWhile_cons_of_pos hx] at h
      simp only [List.length_cons, List.getElem?_cons_succ] at h
      exact ih a h
    · rw [List.takeWhile_cons_of_neg hx] at h
      simp only [List.length_nil, List.getElem?_cons_zero, Option.some.injEq] at h
      subst h
      exact Bool.not_eq_true _ ▸ (by simpa using hx)

/-- When every element satisfies the predicate, takeWhile is the identity. -/
theorem takeWhile_eq_self_of_all {α : Type} (p : α → Bool) :
    ∀ l : List α, (∀ a ∈ l, p a = true) → l.takeWhile p = l := by
  intro l
  induction l with
  | nil => intro _; rfl
  | cons x l ih =>
    intro h
    have hx : p x = true := h x (List.mem_cons_self x l)
    rw [List.takeWhile_cons_of_pos hx]
    rw [ih (fun a ha => h a (List.mem_cons_of_mem x ha))]

/-- The lower-bound index never exceeds the length. -/
theorem lowerBoundIdx_le_length {α : Type} (cmp : α → α → Int) (l : List α)
    (t : α) : lowerBoundIdx cmp l t ≤ l.length :=
  (List.takeWhile_sublist _).length_le

/-- The concrete comparator is sign-antisymmetric. -/
theorem natCmp_anti : ∀ a b : Nat, natCmp a b < 0 ↔ 0 < natCmp b a := by
  intro a b
  simp only [natCmp]
  omega

/-- The concrete comparator has a transitive non-strict order. -/
theorem natCmp_trans :
    ∀ a b c : Nat, natCmp a b ≤ 0 → natCmp b c ≤ 0 → natCmp a c ≤ 0 := by
  intro a b c
  simp only [natCmp]
  omega

/-- DoSort keeps the length of the iterator's backing sequence, given the
aliasing discipline that a shared iterator's bucket mirrors the store's. -/
theorem DoSort_bucket_length {α : Type} (cmp : α → α → Int) (st : Store α)
    (it : Iter α) (halias : it.shared = true → it.bucket = st.bucket) :
    ((DoSort cmp st it).2).bucket.length = it.bucket.length := by
  unfold DoSort
  cases h : it.sorted with
  | true => simp
  | false =>
    cases hsh : it.shared with
    | false => simp [length_sortBucket]
    | true =>
      rw [halias hsh]
      cases hst : st.sorted with
      | false => simp [length_sortBucket]
      | true => simp

/-- SeekToFirst on a fresh private-mode iterator sorts the snapshot and
leaves the store untouched. -/
theorem SeekToFirst_private {α : Type} (cmp : α → α → Int) (s : Store α)
    (b : List α) :
    SeekToFirst cmp s (mkIterator false b)
      = (s, { shared := false, bucket := sortBucket cmp b, cit := some 0,
              sorted := true }) := by
  simp [SeekToFirst, DoSort, mkIterator]

/-! Claims. -/

/-- C6: Contains answers membership by raw reference identity, and a
comparator can deem a distinct reference equal to a present entry while
Contains still answers false. -/
theorem contains_checks_reference_identity :
    (∀ (st : Store Nat) (e : Nat), Contains st e = true ↔ e ∈ st.bucket) ∧
    ∃ (cmp : Nat → Nat → Int) (st : Store Nat) (e x : Nat),
      x ∈ st.bucket ∧ cmp x e = 0 ∧ Contains st e = false := by
  constructor
  · intro st e
    simp [Contains, List.elem_iff]
  · exact ⟨fun a b => ((a / 2 : Nat) : Int) - ((b / 2 : Nat) : Int),
      { bucket := [2], immutable := false, sorted := false }, 3, 2,
      by decide, by decide, by decide⟩

/-- C8: MarkReadOnly is idempotent, establishes immutability while leaving
the rest of the state alone, and no store-returning operation resets the
immutable flag. -/
theorem markReadOnly_idempotent (st : Store Nat) (k : Nat)
    (cmp : Nat → Nat → Int) (it : Iter Nat) :
    MarkReadOnly (MarkReadOnly st) = MarkReadOnly st ∧
    (MarkReadOnly st).immutable = true ∧
    (MarkReadOnly st).bucket = st.bucket ∧
    (MarkReadOnly st).sorted = st.sorted ∧
    (Insert st k).immutable = st.immutable ∧
    ((DoSort cmp st it).1).immutable = st.immutable := by
  refine ⟨rfl, rfl, rfl, rfl, rfl, ?_⟩
  unfold DoSort
  cases h : it.sorted <;> cases hsh : it.shared <;> cases hst : st.sorted <;>
    simp

/-- C9: ApproximateMemoryUsage is the fixed per-instance overhead plus the
entry count times the reference size, hence non-decreasing across any
sequence of inserts. -/
theorem approximateMemoryUsage_monotone (szPtr szVec szRef : Nat)
    (st : Store Nat) (ks : List Nat) :
    ApproximateMemoryUsage szPtr szVec szRef st
      = szPtr + szVec + st.bucket.length * szRef ∧
    ApproximateMemoryUsage szPtr szVec szRef st
      ≤ ApproximateMemoryUsage szPtr szVec szRef (ks.foldl Insert st) := by
  refine ⟨rfl, ?_⟩
  unfold ApproximateMemoryUsage
  rw [foldl_Insert_bucket]
  have h : st.bucket.length * szRef ≤ (st.bucket ++ ks).length * szRef := by
    apply Nat.mul_le_mul_right
    simp
  omega

/-- C7: SeekToFirst and SeekToLast on an empty backing sequence leave the
cursor past-end so Valid is false; on a non-empty sequence they land on the
first and last position and Valid is true. -/
theorem seekToFirst_seekToLast_validity (cmp : Nat → Nat → Int)
    (st : Store Nat) (it : Iter Nat)
    (halias : it.shared = true → it.bucket = st.bucket) :
    ((SeekToFirst cmp st it).2).cit = some 0 ∧
    (Valid cmp (SeekToFirst cmp st it).1 (SeekToFirst cmp st it).2).2.2
      = !it.bucket.isEmpty ∧
    ((SeekToLast cmp st it).2).cit = some (it.bucket.length - 1) ∧
    (Valid cmp (SeekToLast cmp st it).1 (SeekToLast cmp st it).2).2.2
      = !it.bucket.isEmpty := by
  have hs2 := sorted_DoSort cmp st it
  have hlen := DoSort_bucket_length cmp st it halias
  refine ⟨rfl, ?_, ?_, ?_⟩
  · rw [show SeekToFirst cmp st it
        = ((DoSort cmp st it).1,
           { (DoSort cmp st it).2 with cit := some 0 }) from rfl]
    rw [Valid_of_sorted cmp _ _ (by simpa using hs2)]
    simp only [ne_eq, Option.some.injEq]
    rw [show ({ (DoSort cmp st it).2 with cit := some 0 } : Iter Nat).bucket
        = ((DoSort cmp st it).2).bucket from rfl, hlen]
    cases hb : it.bucket <;> simp
  · rw [show SeekToLast cmp st it
        = ((DoSort cmp st it).1,
           { (DoSort cmp st it).2 with
             cit := some (if ((DoSort cmp st it).2).bucket.length = 0
                 then ((DoSort cmp st it).2).bucket.length
                 else ((DoSort cmp st it).2).bucket.length - 1) }) from rfl]
    simp only [hlen]
    by_cases h0 : it.bucket.length = 0 <;> simp [h0]
  · rw [show SeekToLast cmp st it
        = ((DoSort cmp st it).1,
           { (DoSort cmp st it).2 with
             cit := some (if ((DoSort cmp st it).2).bucket.length = 0
                 then ((DoSort cmp st it).2).bucket.length
                 else ((DoSort cmp st it).2).bucket.length - 1) }) from rfl]
    rw [Valid_of_sorted cmp _ _ (by simpa using hs2)]
    simp only [ne_eq, Option.some.injEq, hlen]
    cases hb : it.bucket with
    | nil => simp
    | cons x xs => simp

/-- Closed instance of the C7 theorem on a two-element private snapshot. -/
theorem seekToFirst_seekToLast_validity_witness :
    ((SeekToFirst natCmp (mkStore Nat 0) (mkIterator false [4, 2])).2).cit
      = some 0 ∧
    (Valid natCmp
        (SeekToFirst natCmp (mkStore Nat 0) (mkIterator false [4, 2])).1
        (SeekToFirst natCmp (mkStore Nat 0) (mkIterator false [4, 2])).2).2.2
      = !(mkIterator false ([4, 2] : List Nat)).bucket.isEmpty ∧
    ((SeekToLast natCmp (mkStore Nat 0) (mkIterator false [4, 2])).2).cit
      = some ((mkIterator false ([4, 2] : List Nat)).bucket.length - 1) ∧
    (Valid natCmp
        (SeekToLast natCmp (mkStore Nat 0) (mkIterator false [4, 2])).1
        (SeekToLast natCmp (mkStore Nat 0) (mkIterator false [4, 2])).2).2.2
      = !(mkIterator false ([4, 2] : List Nat)).bucket.isEmpty :=
  seekToFirst_seekToLast_validity natCmp (mkStore Nat 0)
    (mkIterator false [4, 2]) (fun h => nomatch h)

/-- C5: on a valid iterator, Prev at the first position sets the cursor to
the past-end sentinel (Valid becomes false, no wraparound); at any later
position it moves the cursor back by exactly one. -/
theorem prev_first_invalidates (cmp : Nat → Nat → Int) (st : Store Nat)
    (it : Iter Nat) (i : Nat) (hs : it.sorted = true) (hc : it.cit = some i)
    (_hv : (Valid cmp st it).2.2 = true) :
    (i = 0 → (Prev it).cit = some it.bucket.length ∧
      (Valid cmp st (Prev it)).2.2 = false) ∧
    (0 < i → (Prev it).cit = some (i - 1)) := by
  constructor
  · intro h0
    subst h0
    have hp : Prev it = { it with cit := some it.bucket.length } := by
      simp [Prev, hc]
    rw [hp]
    refine ⟨rfl, ?_⟩
    rw [Valid_of_sorted cmp st _ (by simpa using hs)]
    simp
  · intro hpos
    simp [Prev, hc, Nat.pos_iff_ne_zero.mp hpos]

/-- Closed instance of the C5 theorem at the first position of a singleton
snapshot. -/
theorem prev_first_invalidates_witness :
    ({ shared := false, bucket := [5], cit := some 0, sorted := true }
        : Iter Nat).sorted = true ∧
    ({ shared := false, bucket := [5], cit := some 0, sorted := true }
        : Iter Nat).cit = some 0 ∧
    (Valid natCmp (mkStore Nat 0)
        ({ shared := false, bucket := [5], cit := some 0, sorted := true }
          : Iter Nat)).2.2 = true ∧
    ((0 = 0 →
        (Prev ({ shared := false, bucket := [5], cit := some 0, sorted := true }
            : Iter Nat)).cit
          = some ({ shared := false, bucket := [5], cit := some 0, sorted := true }
              : Iter Nat).bucket.length ∧
        (Valid natCmp (mkStore Nat 0)
            (Prev ({ shared := false, bucket := [5], cit := some 0, sorted := true }
              : Iter Nat))).2.2 = false) ∧
      (0 < 0 →
        (Prev ({ shared := false, bucket := [5], cit := some 0, sorted := true }
            : Iter Nat)).cit = some (0 - 1))) :=
  ⟨rfl, rfl, by decide,
    prev_first_invalidates natCmp (mkStore Nat 0)
      ({ shared := false, bucket := [5], cit := some 0, sorted := true }
        : Iter Nat) 0 rfl rfl (by decide)⟩

/-- C10: on a private-mode iterator fresh out of GetIterator, the first
Valid call runs the lazy sort, positions the cursor on the first entry and
answers true exactly when the snapshot is non-empty, even though no
positioning operation was called. -/
theorem valid_first_call_positions (cmp : Nat → Nat → Int) (st : Store Nat)
    (him : st.immutable = false) :
    (GetIterator st).cit = none ∧ (GetIterator st).sorted = false ∧
    (Valid cmp st (GetIterator st)).2.1.cit = some 0 ∧
    (Valid cmp st (GetIterator st)).2.1.sorted = true ∧
    (Valid cmp st (GetIterator st)).2.1.bucket = sortBucket cmp st.bucket ∧
    (Valid cmp st (GetIterator st)).2.2 = !st.bucket.isEmpty := by
  have hg : GetIterator st = mkIterator false st.bucket := by
    simp [GetIterator, him]
  rw [hg]
  have hV : Valid cmp st (mkIterator false st.bucket)
      = (st,
         { shared := false, bucket := sortBucket cmp st.bucket, cit := some 0,
           sorted := true },
         decide (some 0 ≠ some (sortBucket cmp st.bucket).length)) := rfl
  rw [hV]
  refine ⟨rfl, rfl, rfl, rfl, rfl, ?_⟩
  simp only [ne_eq, Option.some.injEq, length_sortBucket]
  cases hb : st.bucket <;> simp

/-- Closed instance of the C10 theorem on a mutable two-entry store. -/
theorem valid_first_call_positions_witness :
    ({ bucket := [7, 3], immutable := false, sorted := false } : Store Nat).immutable = false ∧
    ((GetIterator ({ bucket := [7, 3], immutable := false, sorted := false } : Store Nat)).cit = none ∧
      (GetIterator ({ bucket := [7, 3], immutable := false, sorted := false } : Store Nat)).sorted = false ∧
      (Valid natCmp ({ bucket := [7, 3], immutable := false, sorted := false } : Store Nat)
          (GetIterator ({ bucket := [7, 3], immutable := false, sorted := false } : Store Nat))).2.1.cit = some 0 ∧
      (Valid natCmp ({ bucket := [7, 3], immutable := false, sorted := false } : Store Nat)
          (GetIterator ({ bucket := [7, 3], immutable := false, sorted := false } : Store Nat))).2.1.sorted = true ∧
      (Valid natCmp ({ bucket := [7, 3], immutable := false, sorted := false } : Store Nat)
          (GetIterator ({ bucket := [7, 3], immutable := false, sorted := false } : Store Nat))).2.1.bucket
        = sortBucket natCmp ({ bucket := [7, 3], immutable := false, sorted := false } : Store Nat).bucket ∧
      (Valid natCmp ({ bucket := [7, 3], immutable := false, sorted := false } : Store Nat)
          (GetIterator ({ bucket := [7, 3], immutable := false, sorted := false } : Store Nat))).2.2
        = !({ bucket := [7, 3], immutable := false, sorted := false } : Store Nat).bucket.isEmpty) :=
  ⟨rfl, valid_first_call_positions natCmp
    ({ bucket := [7, 3], immutable := false, sorted := false } : Store Nat) rfl⟩

/-- C2: Seek lands on the first position (in the sorted backing sequence)
whose entry is not ordered before the target: every earlier entry is
ordered before the target and the entry at the cursor, when present, is
not; when every entry is ordered before the target the cursor is past-end
and Valid answers false. -/
theorem seek_positions_lower_bound (cmp : Nat → Nat → Int) (st : Store Nat)
    (it : Iter Nat) (target : Nat) :
    ∃ j, ((Seek cmp st it target).2).cit = some j ∧
      j ≤ ((Seek cmp st it target).2).bucket.length ∧
      (∀ a ∈ ((Seek cmp st it target).2).bucket.take j, cmp a target < 0) ∧
      (∀ a ∈ ((Seek cmp st it target).2).bucket[j]?, ¬ cmp a target < 0) ∧
      ((∀ a ∈ ((Seek cmp st it target).2).bucket, cmp a target < 0) →
        (Valid cmp (Seek cmp st it target).1 (Seek cmp st it target).2).2.2
          = false) := by
  rcases hds : DoSort cmp st it with ⟨s2, it2⟩
  have hs2 : it2.sorted = true := by
    have h := sorted_DoSort cmp st it
    rw [hds] at h
    exact h
  have hseek : Seek cmp st it target
      = (s2, { it2 with cit := some (lowerBoundIdx cmp it2.bucket target) }) := by
    simp [Seek, hds]
  rw [hseek]
  refine ⟨lowerBoundIdx cmp it2.bucket target, rfl,
    lowerBoundIdx_le_length cmp it2.bucket target, ?_, ?_, ?_⟩
  · intro a ha
    simp only [lowerBoundIdx] at ha
    rw [take_length_takeWhile] at ha
    have hall := List.all_takeWhile
      (l := it2.bucket) (p := fun a => decide (cmp a target < 0))
    have := List.all_eq_true.mp hall a ha
    simpa using this
  · intro a ha
    rw [Option.mem_def] at ha
    simp only [lowerBoundIdx] at ha
    have := getElem?_length_takeWhile
      (fun a => decide (cmp a target < 0)) it2.bucket a ha
    simpa using this
  · intro hall
    have hTW : it2.bucket.takeWhile (fun a => decide (cmp a target < 0))
        = it2.bucket := by
      apply takeWhile_eq_self_of_all
      intro a ha
      simpa using hall a ha
    have hj : lowerBoundIdx cmp it2.bucket target = it2.bucket.length := by
      simp [lowerBoundIdx, hTW]
    rw [Valid_of_sorted cmp s2 _ (by simpa using hs2)]
    simp [hj]

/-- C1: pairwise comparator-distinct entries inserted while mutable, then
frozen: SeekToFirst followed by repeated Next yields exactly the inserted
entries, in strictly ascending comparator order. -/
theorem insert_freeze_iterate_in_order (cmp : Nat → Nat → Int) (l : List Nat)
    (hanti : ∀ a b : Nat, cmp a b < 0 ↔ 0 < cmp b a)
    (htrans : ∀ a b c : Nat, cmp a b ≤ 0 → cmp b c ≤ 0 → cmp a c ≤ 0)
    (hdist : l.Pairwise (fun a b => cmp a b ≠ 0)) :
    drain cmp (l.length + 1)
        (SeekToFirst cmp (MarkReadOnly (l.foldl Insert (mkStore Nat l.length)))
          (GetIterator (MarkReadOnly (l.foldl Insert (mkStore Nat l.length))))).1
        (SeekToFirst cmp (MarkReadOnly (l.foldl Insert (mkStore Nat l.length)))
          (GetIterator (MarkReadOnly (l.foldl Insert (mkStore Nat l.length))))).2
      = sortBucket cmp l ∧
    (sortBucket cmp l).Perm l ∧
    (sortBucket cmp l).Pairwise (fun a b => cmp a b < 0) := by
  have hst : MarkReadOnly (l.foldl Insert (mkStore Nat l.length))
      = { bucket := l, immutable := true, sorted := false } := by
    rw [show MarkReadOnly (l.foldl Insert (mkStore Nat l.length))
        = ({ bucket := (l.foldl Insert (mkStore Nat l.length)).bucket,
             immutable := true,
             sorted := (l.foldl Insert (mkStore Nat l.length)).sorted }
           : Store Nat) from rfl]
    rw [foldl_Insert_bucket, foldl_Insert_sorted]
    simp [mkStore]
  rw [hst]
  have hseek : SeekToFirst cmp
      ({ bucket := l, immutable := true, sorted := false } : Store Nat)
      (GetIterator ({ bucket := l, immutable := true, sorted := false }
        : Store Nat))
      = ({ bucket := sortBucket cmp l, immutable := true, sorted := true },
         { shared := true, bucket := sortBucket cmp l, cit := some 0,
           sorted := true }) := rfl
  rw [hseek]
  refine ⟨?_, sortBucket_perm cmp l, ?_⟩
  · rw [drain_eq_drop cmp (l.length + 1) _ _ 0 rfl rfl
      (by simp only [length_sortBucket]; omega)]
    simp
  · have h1 := sortBucket_pairwise cmp hanti htrans l
    have hsymm : ∀ {x y : Nat}, cmp x y ≠ 0 → cmp y x ≠ 0 := by
      intro x y hxy hyx0
      rcases lt_trichotomy (cmp x y) 0 with h | h | h
      · have := (hanti x y).1 h
        omega
      · exact hxy h
      · have := (hanti y x).2 h
        omega
    have h2 : (sortBucket cmp l).Pairwise (fun a b => cmp a b ≠ 0) :=
      ((sortBucket_perm cmp l).pairwise_iff hsymm).mpr hdist
    exact (h1.and h2).imp (fun h => lt_of_le_of_ne h.1 h.2)

/-- Closed instance of the C1 theorem on the spec's example insertion
sequence 5,3,4,1,2. -/
theorem insert_freeze_iterate_in_order_witness :
    List.Pairwise (fun a b => natCmp a b ≠ 0) [5, 3, 4, 1, 2] ∧
    (drain natCmp (([5, 3, 4, 1, 2] : List Nat).length + 1)
        (SeekToFirst natCmp
          (MarkReadOnly ([5, 3, 4, 1, 2].foldl Insert
            (mkStore Nat ([5, 3, 4, 1, 2] : List Nat).length)))
          (GetIterator (MarkReadOnly ([5, 3, 4, 1, 2].foldl Insert
            (mkStore Nat ([5, 3, 4, 1, 2] : List Nat).length))))).1
        (SeekToFirst natCmp
          (MarkReadOnly ([5, 3, 4, 1, 2].foldl Insert
            (mkStore Nat ([5, 3, 4, 1, 2] : List Nat).length)))
          (GetIterator (MarkReadOnly ([5, 3, 4, 1, 2].foldl Insert
            (mkStore Nat ([5, 3, 4, 1, 2] : List Nat).length))))).2
      = sortBucket natCmp [5, 3, 4, 1, 2] ∧
     (sortBucket natCmp [5, 3, 4, 1, 2]).Perm [5, 3, 4, 1, 2] ∧
     (sortBucket natCmp [5, 3, 4, 1, 2]).Pairwise
       (fun a b => natCmp a b < 0)) :=
  ⟨by decide, insert_freeze_iterate_in_order natCmp [5, 3, 4, 1, 2]
    natCmp_anti natCmp_trans (by decide)⟩

/-- C4: an iterator obtained while the store is mutable is private and
snapshots the bucket at creation; later inserts leave the store component
untouched by the iterator's operations and leave the traversal exactly the
snapshot contents, the same as if no insert had happened. -/
theorem snapshot_isolation (cmp : Nat → Nat → Int) (st : Store Nat)
    (ks : List Nat) (him : st.immutable = false) :
    (GetIterator st).shared = false ∧
    (GetIterator st).bucket = st.bucket ∧
    (ks.foldl Insert st).bucket = st.bucket ++ ks ∧
    (SeekToFirst cmp (ks.foldl Insert st) (GetIterator st)).1
      = ks.foldl Insert st ∧
    drain cmp (st.bucket.length + 1)
        (SeekToFirst cmp (ks.foldl Insert st) (GetIterator st)).1
        (SeekToFirst cmp (ks.foldl Insert st) (GetIterator st)).2
      = sortBucket cmp st.bucket ∧
    drain cmp (st.bucket.length + 1)
        (SeekToFirst cmp (ks.foldl Insert st) (GetIterator st)).1
        (SeekToFirst cmp (ks.foldl Insert st) (GetIterator st)).2
      = drain cmp (st.bucket.length + 1)
          (SeekToFirst cmp st (GetIterator st)).1
          (SeekToFirst cmp st (GetIterator st)).2 := by
  have hg : GetIterator st = mkIterator false st.bucket := by
    simp [GetIterator, him]
  rw [hg]
  have hdrain : ∀ s : Store Nat,
      drain cmp (st.bucket.length + 1)
          (SeekToFirst cmp s (mkIterator false st.bucket)).1
          (SeekToFirst cmp s (mkIterator false st.bucket)).2
        = sortBucket cmp st.bucket := by
    intro s
    rw [SeekToFirst_private]
    rw [drain_eq_drop cmp (st.bucket.length + 1) _ _ 0 rfl rfl
      (by simp only [length_sortBucket]; omega)]
    simp
  refine ⟨rfl, rfl, foldl_Insert_bucket ks st, ?_, hdrain _, ?_⟩
  · rw [SeekToFirst_private]
  · rw [hdrain, hdrain]

/-- Closed instance of the C4 theorem: snapshot of a two-entry mutable
store survives two later inserts. -/
theorem snapshot_isolation_witness :
    ({ bucket := [2, 1], immutable := false, sorted := false }
        : Store Nat).immutable = false ∧
    ((GetIterator ({ bucket := [2, 1], immutable := false, sorted := false } : Store Nat)).shared = false ∧
      (GetIterator ({ bucket := [2, 1], immutable := false, sorted := false } : Store Nat)).bucket
        = ({ bucket := [2, 1], immutable := false, sorted := false } : Store Nat).bucket ∧
      (([0, 3] : List Nat).foldl Insert ({ bucket := [2, 1], immutable := false, sorted := false } : Store Nat)).bucket
        = ({ bucket := [2, 1], immutable := false, sorted := false } : Store Nat).bucket ++ [0, 3] ∧
      (SeekToFirst natCmp (([0, 3] : List Nat).foldl Insert ({ bucket := [2, 1], immutable := false, sorted := false } : Store Nat))
          (GetIterator ({ bucket := [2, 1], immutable := false, sorted := false } : Store Nat))).1
        = ([0, 3] : List Nat).foldl Insert ({ bucket := [2, 1], immutable := false, sorted := false } : Store Nat) ∧
      drain natCmp (({ bucket := [2, 1], immutable := false, sorted := false } : Store Nat).bucket.length + 1)
          (SeekToFirst natCmp (([0, 3] : List Nat).foldl Insert ({ bucket := [2, 1], immutable := false, sorted := false } : Store Nat))
            (GetIterator ({ bucket := [2, 1], immutable := false, sorted := false } : Store Nat))).1
          (SeekToFirst natCmp (([0, 3] : List Nat).foldl Insert ({ bucket := [2, 1], immutable := false, sorted := false } : Store Nat))
            (GetIterator ({ bucket := [2, 1], immutable := false, sorted := false } : Store Nat))).2
        = sortBucket natCmp ({ bucket := [2, 1], immutable := false, sorted := false } : Store Nat).bucket ∧
      drain natCmp (({ bucket := [2, 1], immutable := false, sorted := false } : Store Nat).bucket.length + 1)
          (SeekToFirst natCmp (([0, 3] : List Nat).foldl Insert ({ bucket := [2, 1], immutable := false, sorted := false } : Store Nat))
            (GetIterator ({ bucket := [2, 1], immutable := false, sorted := false } : Store Nat))).1
          (SeekToFirst natCmp (([0, 3] : List Nat).foldl Insert ({ bucket := [2, 1], immutable := false, sorted := false } : Store Nat))
            (GetIterator ({ bucket := [2, 1], immutable := false, sorted := false } : Store Nat))).2
        = drain natCmp (({ bucket := [2, 1], immutable := false, sorted := false } : Store Nat).bucket.length + 1)
            (SeekToFirst natCmp ({ bucket := [2, 1], immutable := false, sorted := false } : Store Nat)
              (GetIterator ({ bucket := [2, 1], immutable := false, sorted := false } : Store Nat))).1
            (SeekToFirst natCmp ({ bucket := [2, 1], immutable := false, sorted := false } : Store Nat)
              (GetIterator ({ bucket := [2, 1], immutable := false, sorted := false } : Store Nat))).2) :=
  ⟨rfl, snapshot_isolation natCmp
    ({ bucket := [2, 1], immutable := false, sorted := false } : Store Nat)
    [0, 3] rfl⟩

/-- DoSort either leaves the store untouched, or (shared iterator, store
not yet sorted) replaces the bucket by its sorted permutation and sets the
sorted flag. -/
theorem DoSort_store_cases {α : Type} (cmp : α → α → Int) (st : Store α)
    (it : Iter α) :
    (DoSort cmp st it).1 = st ∨
    (it.shared = true ∧ st.sorted = false ∧
      (DoSort cmp st it).1
        = { st with bucket := sortBucket cmp st.bucket, sorted := true }) := by
  unfold DoSort
  cases h : it.sorted <;> cases hsh : it.shared <;> cases hst : st.sorted <;>
    simp

/-- C3: assuming the caller contract (no Insert after MarkReadOnly, encoded
in the step relation), every store transition preserves the invariant that
a set sorted flag comes with immutability and a comparator-ordered bucket;
and a shared-mode DoSort that finds the store already sorted leaves the
store, in particular the shared sequence, unchanged. -/
theorem sorted_flag_invariant (cmp : Nat → Nat → Int)
    (hanti : ∀ a b : Nat, cmp a b < 0 ↔ 0 < cmp b a)
    (htrans : ∀ a b c : Nat, cmp a b ≤ 0 → cmp b c ≤ 0 → cmp a c ≤ 0) :
    (∀ st st' : Store Nat, StoreInv cmp st → StoreStep cmp st st' →
      StoreInv cmp st') ∧
    (∀ (st : Store Nat) (it : Iter Nat), it.shared = true →
      st.sorted = true → (DoSort cmp st it).1 = st) := by
  constructor
  · intro st st' hinv hstep
    cases hstep with
    | insert k hm =>
      intro hsorted
      have hs : st.sorted = true := hsorted
      have h := hinv hs
      rw [hm] at h
      exact absurd h.1 (by simp)
    | mark =>
      intro hsorted
      exact ⟨rfl, (hinv hsorted).2⟩
    | sortShared it hsh him =>
      rcases DoSort_store_cases cmp st it with hcase | ⟨_, _, hcase⟩
      · rw [hcase]
        exact hinv
      · rw [hcase]
        intro _
        exact ⟨him, sortBucket_pairwise cmp hanti htrans st.bucket⟩
  · intro st it hsh hst
    unfold DoSort
    cases h : it.sorted <;> simp [hsh, hst]

/-- Closed instance of the C3 theorem: the invariant survives MarkReadOnly
on a sorted frozen store, and a redundant shared DoSort is a no-op on the
store. -/
theorem sorted_flag_invariant_witness :
    StoreInv natCmp
      ({ bucket := [1, 2], immutable := true, sorted := true } : Store Nat) ∧
    StoreInv natCmp (MarkReadOnly
      ({ bucket := [1, 2], immutable := true, sorted := true } : Store Nat)) ∧
    (DoSort natCmp
        ({ bucket := [1, 2], immutable := true, sorted := true } : Store Nat)
        (mkIterator true [1, 2])).1
      = ({ bucket := [1, 2], immutable := true, sorted := true }
          : Store Nat) := by
  have hinv : StoreInv natCmp
      ({ bucket := [1, 2], immutable := true, sorted := true } : Store Nat) := by
    intro _
    refine ⟨rfl, ?_⟩
    decide
  exact ⟨hinv,
    (sorted_flag_invariant natCmp natCmp_anti natCmp_trans).1 _ _ hinv
      (StoreStep.mark _),
    (sorted_flag_invariant natCmp natCmp_anti natCmp_trans).2 _
      (mkIterator true [1, 2]) rfl rfl⟩

end VectorRep
